import Mathlib

/-!
Verification of the descriptive-statistics notebook
(`src/descriptive_stats.ipynb`).

The notebook is a straight-line script over small in-memory samples; every
statistic it prints is a single library call.  We embed each of those calls
shallowly: float64 samples become `List ℚ` (exact-rational idealization of the
arithmetic the libraries perform), the fallible CSV read becomes `Except`, and
the external-storage surface of the notebook becomes an explicit effect trace.
-/

namespace DescStats

/-- Ascending sort of a sample, as `np.sort` and the numpy median partition
produce it. -/
def npSort (l : List ℚ) : List ℚ :=
  l.insertionSort (· ≤ ·)

/-- `np.mean`: the sum of the values divided by their number. -/
def npMean (l : List ℚ) : ℚ :=
  l.sum / l.length

/-- `np.median`: numpy sorts (partitions) the sample, then for even size `n`
returns the mean of the elements at positions `n/2 - 1` and `n/2`, and for odd
size the element at position `(n-1)/2`. -/
def npMedian (l : List ℚ) : ℚ :=
  let s := npSort l
  let n := l.length
  if n % 2 = 0 then (s.getD (n / 2 - 1) 0 + s.getD (n / 2) 0) / 2
  else s.getD ((n - 1) / 2) 0

/-- The largest frequency attained by any value of the sample (the `count`
that the scipy mode maximises over the sorted unique values). -/
def maxCount (l : List ℚ) : ℕ :=
  (l.dedup.map fun v => l.count v).foldr max 0

/-- `stats.mode(data)[0]` (scipy legacy mode): `np.unique` lists the distinct
values in ascending order, the counts are taken, and `argmax` returns the
first — hence smallest — value attaining the maximal count.  `none` on an
empty sample. -/
def statsMode (l : List ℚ) : Option ℚ :=
  (((npSort l).dedup).filter fun v => decide (l.count v = maxCount l)).head?

/-- `ndarray.var(ddof)`: numpy computes the arithmetic mean once, then divides
the sum of squared deviations by `n - ddof`. -/
def npVarDdof (l : List ℚ) (ddof : ℕ) : ℚ :=
  let m := l.foldl (· + ·) (0 : ℚ) / l.length
  (l.foldl (fun acc x => acc + (x - m) ^ 2) (0 : ℚ)) / ((l.length : ℚ) - (ddof : ℚ))

/-- `ndarray.std()`: the square root of `ndarray.var` at the numpy default
`ddof = 0`. -/
noncomputable def npStd (l : List ℚ) : ℝ :=
  Real.sqrt (npVarDdof l 0)

/-- `np.percentile` with the default linear interpolation: on the sorted
sample of size `n`, the virtual position is `q/100 * (n-1)`; the result
interpolates between the floor index and the (clipped) next index with the
fractional weight. -/
def npPercentile (l : List ℚ) (q : ℚ) : ℚ :=
  let s := npSort l
  let n := l.length
  let pos : ℚ := q / 100 * ((n : ℚ) - 1)
  let below : ℕ := pos.floor.toNat
  let above : ℕ := min (below + 1) (n - 1)
  let w : ℚ := pos - (pos.floor : ℚ)
  s.getD below 0 * (1 - w) + s.getD above 0 * w

/-- The interquartile range exactly as the notebook prints it:
`np.percentile(x, q=75) - np.percentile(x, q=25)`. -/
def notebookIQR (l : List ℚ) : ℚ :=
  npPercentile l 75 - npPercentile l 25

/-- The central power sums the pandas `nanskew` and `nankurt` build:
`d = x - mean`, `m_k = Σ dᵏ` (sums of powers of deviations, not means). -/
def centralPowSum (l : List ℚ) (k : ℕ) : ℚ :=
  (l.map fun x => (x - npMean l) ^ k).sum

/-- `Series.kurt` (pandas `nankurt`): with `m2 = Σd²`, `m4 = Σd⁴`, pandas
returns `n(n+1)(n-1)·m4 / ((n-2)(n-3)·m2²) − 3(n-1)²/((n-2)(n-3))`; samples of
fewer than 4 values give `NaN` (modelled `none`) and a vanishing denominator
gives `0`. -/
def pandasKurt (l : List ℚ) : Option ℚ :=
  let n : ℚ := l.length
  let m2 := centralPowSum l 2
  let m4 := centralPowSum l 4
  let adj := 3 * (n - 1) ^ 2 / ((n - 2) * (n - 3))
  let numer := n * (n + 1) * (n - 1) * m4
  let denom := (n - 2) * (n - 3) * m2 ^ 2
  if l.length < 4 then none
  else if denom = 0 then some 0
  else some (numer / denom - adj)

/-- `Series.skew` (pandas `nanskew`): with `m2 = Σd²`, `m3 = Σd³`, pandas
returns `(n·√(n-1)/(n-2)) · m3/m2^{3/2}`; samples of fewer than 3 values give
`NaN` (modelled `none`) and `m2 = 0` gives `0`. -/
noncomputable def pandasSkew (l : List ℚ) : Option ℝ :=
  let n : ℚ := l.length
  let m2 := centralPowSum l 2
  let m3 := centralPowSum l 3
  if l.length < 3 then none
  else if m2 = 0 then some 0
  else some (((n : ℝ) * Real.sqrt ((n : ℝ) - 1) / ((n : ℝ) - 2)) *
    ((m3 : ℝ) / ((m2 : ℝ) * Real.sqrt (m2 : ℝ))))

/-- The plain (textbook) fourth standardized moment of a sample:
`(m4/n)/(m2/n)² = n·m4/m2²`. -/
def plainKurt (l : List ℚ) : ℚ :=
  (l.length : ℚ) * centralPowSum l 4 / centralPowSum l 2 ^ 2

/-- The plain (textbook) third standardized moment of a sample:
`(m3/n)/(m2/n)^{3/2} = √n·m3/(m2·√m2)`. -/
noncomputable def plainSkew (l : List ℚ) : ℝ :=
  Real.sqrt (l.length : ℝ) * (centralPowSum l 3 : ℝ) /
    ((centralPowSum l 2 : ℝ) * Real.sqrt (centralPowSum l 2 : ℝ))

/-- Reflection of a value about the point `c`. -/
def reflectAbout (c x : ℚ) : ℚ :=
  2 * c - x

/-- A sample is symmetric about `c` when reflecting every value about `c`
permutes the sample (the two multisets coincide). -/
def SymmetricAbout (l : List ℚ) (c : ℚ) : Prop :=
  ((l.map (reflectAbout c) : List ℚ) : Multiset ℚ) = (l : Multiset ℚ)

/-- A sample is unimodal with mode `m` when `m` occurs strictly more often
than every other value. -/
def IsStrictMode (l : List ℚ) (m : ℚ) : Prop :=
  m ∈ l ∧ ∀ v ∈ l, v ≠ m → l.count v < l.count m

instance (l : List ℚ) (c : ℚ) : Decidable (SymmetricAbout l c) := by
  unfold SymmetricAbout; infer_instance

instance (l : List ℚ) (m : ℚ) : Decidable (IsStrictMode l m) := by
  unfold IsStrictMode; infer_instance

/-- The tiny symmetric dataset S = [1, 2, 2, 3] of the notebook markdown. -/
def sampleS : List ℚ :=
  [1, 2, 2, 3]

/-- The 11-element dataset `data = np.array([5, 5, 3, 4, 2, 5, 7, 8, 8, 1, 2])`
of cell-4. -/
def sampleData : List ℚ :=
  [5, 5, 3, 4, 2, 5, 7, 8, 8, 1, 2]

/-- A row of the classic-rock CSV: song title, artist, play count. -/
structure SongRow where
  song : String
  artist : String
  playCount : ℚ
deriving DecidableEq

/-- The possible states of the input file the rock-data section reads. -/
inductive CsvFile where
  | missing : CsvFile
  | malformed : CsvFile
  | wellFormed : List SongRow → CsvFile
deriving DecidableEq

/-- Modelled from the spec: `pd.read_csv` is pandas library code outside this
repository; per the spec, a missing input file or a malformed row surfaces as
an immediate unhandled error.  The read returns the parsed rows when the file
is present and well-formed and raises (`Except.error`) otherwise. -/
def readCsv (file : CsvFile) : Except String (List SongRow) :=
  match file with
  | .missing => .error "FileNotFoundError"
  | .malformed => .error "ParserError"
  | .wellFormed rows => .ok rows

/-- The groupby-count of cell-39 (group the songs by artist column, count the
song column): each distinct
artist paired with the number of rows naming it. -/
def artistCounts (rows : List SongRow) : List (String × ℕ) :=
  (rows.map (·.artist)).dedup.map fun a => (a, (rows.map (·.artist)).count a)

/-- Cells 35–42 of the notebook: read the CSV, group the songs by artist,
sort the per-artist counts descending, and take the kurtosis.  No handler
wraps any step, so a failing read is the value of the whole section. -/
def rockSection (file : CsvFile) : Except String (Option ℚ) := do
  let songs ← readCsv file
  let nums := (artistCounts songs).map fun p => (p.2 : ℚ)
  let numsSorted := nums.insertionSort (· ≥ ·)
  pure (pandasKurt numsSorted)

/-- An external-storage interaction: reading or writing the file at a path. -/
inductive Effect where
  | read : String → Effect
  | write : String → Effect
deriving DecidableEq

/-- Whether an effect is a read. -/
def Effect.isRead : Effect → Bool
  | .read _ => true
  | .write _ => false

/-- The complete list of external-storage interactions of the notebook, in
execution order: the `pd.read_csv` of the classic-rock song list CSV
in cell-35 and `load_iris()` (the bundled Iris reference dataset) in cell-44.
No other cell touches storage. -/
def notebookEffects : List Effect :=
  [.read "data/classic-rock/classic-rock-song-list.csv", .read "sklearn.datasets:iris"]

/-- External storage as a map from paths to contents; running an effect list
threads the store through: reads leave it unchanged, writes update it. -/
def runEffects (store : String → Option String) : List Effect → (String → Option String)
  | [] => store
  | .read _ :: es => runEffects store es
  | .write p :: es => runEffects (fun q => if q = p then some "" else store q) es

/-- The column labels of the Iris dataframe as built in cell-47. -/
def irisColumns : List String :=
  ["sepal_len", "sepal_wid", "petal_len", "petal_wid", "spec"]

/-- The species dictionary `cypher` of cell-49, sending 0 to setosa, 1 to
versicolor and 2 to virginica; the pandas `.map` sends keys outside the
dictionary to NaN, modelled `none`. -/
def cypher (k : ℤ) : Option String :=
  if k = 0 then some "setosa"
  else if k = 1 then some "versicolor"
  else if k = 2 then some "virginica"
  else none

/-- Modelled from the spec: `load_iris()` is sklearn library code outside this
repository; the spec describes it as "the classical Iris measurement dataset
with four numeric features and a three-class label", so the table is modelled
as any rows of four rational features together with integer labels drawn from
`{0, 1, 2}`. -/
structure IrisData where
  features : List (ℚ × ℚ × ℚ × ℚ)
  target : List ℤ
  target_mem : ∀ t ∈ target, t = 0 ∨ t = 1 ∨ t = 2

/-- Cells 48–49: the `spec` column after the integer cast and the `.map`
through `cypher`. -/
def specLabels (d : IrisData) : List (Option String) :=
  d.target.map cypher

/-- A concrete instance of the modelled Iris data: one row of each class. -/
def irisSample : IrisData :=
  ⟨[], [0, 1, 2], by decide⟩

theorem sorted_npSort (l : List ℚ) : (npSort l).Sorted (· ≤ ·) :=
  List.sorted_insertionSort _ l

theorem perm_npSort (l : List ℚ) : List.Perm (npSort l) l :=
  List.perm_insertionSort _ l

theorem length_npSort (l : List ℚ) : (npSort l).length = l.length :=
  (perm_npSort l).length_eq

theorem mem_npSort {l : List ℚ} {x : ℚ} : x ∈ npSort l ↔ x ∈ l :=
  (perm_npSort l).mem_iff

theorem foldl_add_eq_sum (g : ℚ → ℚ) (l : List ℚ) (c : ℚ) :
    l.foldl (fun a x => a + g x) c = c + (l.map g).sum := by
  induction l generalizing c with
  | nil => simp
  | cons x t ih => simp [ih]; ring

/-- C1: for a dataset with an odd number of elements, `np.median` returns the
middle value (position `n / 2`) of the dataset after sorting. -/
theorem npMedian_odd (l : List ℚ) (h : l.length % 2 = 1) :
    npMedian l = (npSort l).getD (l.length / 2) 0 := by
  have hne : ¬ (l.length % 2 = 0) := by omega
  have hidx : (l.length - 1) / 2 = l.length / 2 := by omega
  simp [npMedian, hne, hidx]

/-- C1 witness: the 11-element array of cell-4 has odd length, so its
`np.median` is the middle element of its sort. -/
theorem npMedian_odd_witness :
    sampleData.length % 2 = 1 ∧
      npMedian sampleData = (npSort sampleData).getD (sampleData.length / 2) 0 :=
  ⟨by decide, npMedian_odd sampleData (by decide)⟩

/-- C9: for a nonempty dataset with an even number of values, `np.median`
returns the arithmetic mean of the two middle values (positions `n/2 - 1` and
`n/2`) of the sorted dataset. -/
theorem npMedian_even (l : List ℚ) (h : l.length % 2 = 0) (_hne : l ≠ []) :
    npMedian l =
      ((npSort l).getD (l.length / 2 - 1) 0 + (npSort l).getD (l.length / 2) 0) / 2 := by
  simp [npMedian, h]

/-- C9 witness: `np.median` of the even-length sample `[1, 2, 3, 4]` is the
mean of its two middle sorted values. -/
theorem npMedian_even_witness :
    ([1, 2, 3, 4] : List ℚ).length % 2 = 0 ∧ ([1, 2, 3, 4] : List ℚ) ≠ [] ∧
      npMedian [1, 2, 3, 4] =
        ((npSort [1, 2, 3, 4]).getD (([1, 2, 3, 4] : List ℚ).length / 2 - 1) 0 +
          (npSort [1, 2, 3, 4]).getD (([1, 2, 3, 4] : List ℚ).length / 2) 0) / 2 :=
  ⟨by decide, by decide, npMedian_even [1, 2, 3, 4] (by decide) (by decide)⟩

/-- C2: the standard deviation numpy computes (`x.std()`) is the population
standard deviation: the square root of the sum of squared deviations from the
mean divided by `n` (not `n - 1`). -/
theorem npStd_population (l : List ℚ) (_h : l ≠ []) :
    npStd l =
      Real.sqrt (((l.map fun x => (x - npMean l) ^ 2).sum / (l.length : ℚ) : ℚ)) := by
  unfold npStd
  congr 1
  have : npVarDdof l 0 = (l.map fun x => (x - npMean l) ^ 2).sum / (l.length : ℚ) := by
    unfold npVarDdof npMean
    have h1 : l.foldl (· + ·) (0 : ℚ) = l.sum := by
      have := foldl_add_eq_sum id l 0
      simpa using this
    have h2 := foldl_add_eq_sum (fun x => (x - l.sum / (l.length : ℚ)) ^ 2) l 0
    simp only [h1, h2, zero_add, Nat.cast_zero, sub_zero]
  exact_mod_cast congrArg (fun q : ℚ => (q : ℝ)) this

/-- C2 witness: the population standard deviation identity applied to the
concrete sample `[1, 2]`. -/
theorem npStd_population_witness :
    ([1, 2] : List ℚ) ≠ [] ∧
      npStd [1, 2] =
        Real.sqrt (((([1, 2] : List ℚ).map
          (fun x => (x - npMean [1, 2]) ^ 2)).sum / (([1, 2] : List ℚ).length : ℚ) : ℚ)) :=
  ⟨by decide, npStd_population [1, 2] (by decide)⟩

/-- C3: the interquartile range the notebook reports is exactly the 75th
percentile minus the 25th percentile, both computed by `np.percentile`. -/
theorem notebookIQR_eq (l : List ℚ) (_h : l ≠ []) :
    notebookIQR l = npPercentile l 75 - npPercentile l 25 :=
  rfl

/-- C3 witness: the interquartile-range identity at the concrete sample
`[1, 2, 3, 4]`. -/
theorem notebookIQR_eq_witness :
    ([1, 2, 3, 4] : List ℚ) ≠ [] ∧
      notebookIQR [1, 2, 3, 4] = npPercentile [1, 2, 3, 4] 75 - npPercentile [1, 2, 3, 4] 25 :=
  ⟨by decide, notebookIQR_eq [1, 2, 3, 4] (by decide)⟩

theorem sum_sq_nonneg (l : List ℚ) (c : ℚ) : 0 ≤ (l.map fun x => (x - c) ^ 2).sum := by
  apply List.sum_nonneg
  intro x hx
  obtain ⟨y, -, rfl⟩ := List.mem_map.mp hx
  exact sq_nonneg _

theorem eq_of_sum_sq_eq_zero (l : List ℚ) (c : ℚ)
    (h : (l.map fun x => (x - c) ^ 2).sum = 0) : ∀ x ∈ l, x = c := by
  induction l with
  | nil => simp
  | cons a t ih =>
    simp only [List.map_cons, List.sum_cons] at h
    have h1 : (0 : ℚ) ≤ (a - c) ^ 2 := sq_nonneg _
    have h2 : (0 : ℚ) ≤ (t.map fun x => (x - c) ^ 2).sum := sum_sq_nonneg t c
    have ha : (a - c) ^ 2 = 0 := by linarith
    have ht : (t.map fun x => (x - c) ^ 2).sum = 0 := by linarith
    intro x hx
    rcases List.mem_cons.mp hx with rfl | hx
    · have := sq_eq_zero_iff.mp ha
      linarith
    · exact ih ht x hx

theorem centralPowSum_two_pos (l : List ℚ) (hne : ∃ a ∈ l, ∃ b ∈ l, a ≠ b) :
    0 < centralPowSum l 2 := by
  have h0 : 0 ≤ centralPowSum l 2 := sum_sq_nonneg l (npMean l)
  rcases h0.lt_or_eq with h | h
  · exact h
  · exfalso
    obtain ⟨a, ha, b, hb, hab⟩ := hne
    have hall := eq_of_sum_sq_eq_zero l (npMean l) h.symm
    exact hab ((hall a ha).trans (hall b hb).symm)

/-- C4 counterexample: on the sample `[1, 2, 3, 4, 5]`, the pandas `kurt()`
(value `-6/5`) is neither the plain fourth standardized moment (`17/10`) nor
that moment minus 3 (`-13/10`), so the `nums_sorted.kurt()` of the notebook is not
the plain closed-form moment formula. -/
theorem pandasKurt_ne_plain_moment :
    pandasKurt [1, 2, 3, 4, 5] ≠ some (plainKurt [1, 2, 3, 4, 5]) ∧
      pandasKurt [1, 2, 3, 4, 5] ≠ some (plainKurt [1, 2, 3, 4, 5] - 3) := by
  constructor <;> norm_num [pandasKurt, plainKurt, centralPowSum, npMean]

/-- C4 (amended): the pandas `skew()` and `kurt()` are the bias-adjusted sample
statistics, each a fixed correction of the plain standardized moment: for a
sample of at least 4 values that is not constant, `kurt()` equals
`(n-1)/((n-2)(n-3)) · ((n+1)·(g₂ - 3) + 6)` where `g₂` is the plain fourth
standardized moment, and `skew()` equals the plain third standardized moment
times `√(n(n-1))/(n-2)`. -/
theorem pandas_kurt_skew_bias_adjusted (l : List ℚ) (h4 : 4 ≤ l.length)
    (hne : ∃ a ∈ l, ∃ b ∈ l, a ≠ b) :
    pandasKurt l = some (((l.length : ℚ) - 1) / (((l.length : ℚ) - 2) * ((l.length : ℚ) - 3)) *
        (((l.length : ℚ) + 1) * (plainKurt l - 3) + 6)) ∧
      pandasSkew l = some (plainSkew l *
        (Real.sqrt ((l.length : ℝ) * ((l.length : ℝ) - 1)) / ((l.length : ℝ) - 2))) := by
  have hm2 : (0 : ℚ) < centralPowSum l 2 := centralPowSum_two_pos l hne
  have hm2' : centralPowSum l 2 ≠ 0 := ne_of_gt hm2
  have hn : (4 : ℚ) ≤ (l.length : ℚ) := by exact_mod_cast h4
  have hn2 : (l.length : ℚ) - 2 ≠ 0 := by linarith
  have hn3 : (l.length : ℚ) - 3 ≠ 0 := by linarith
  have hnotlt4 : ¬ (l.length < 4) := by omega
  have hnotlt3 : ¬ (l.length < 3) := by omega
  constructor
  · simp only [pandasKurt, hnotlt4, if_false]
    rw [if_neg (by
      intro hden
      rcases mul_eq_zero.mp hden with hden' | hsq
      · rcases mul_eq_zero.mp hden' with h' | h' <;> [exact hn2 h'; exact hn3 h']
      · exact hm2' ((pow_eq_zero_iff two_ne_zero).mp hsq))]
    congr 1
    unfold plainKurt
    field_simp
    ring
  · simp only [pandasSkew, hnotlt3, if_false, hm2', if_neg]
    congr 1
    unfold plainSkew
    have hcast : (((l.length : ℚ)) : ℝ) = (l.length : ℝ) := by push_cast; rfl
    rw [hcast]
    rw [Real.sqrt_mul (by positivity)]
    have hs : Real.sqrt (l.length : ℝ) ^ 2 = (l.length : ℝ) := Real.sq_sqrt (by positivity)
    linear_combination (-(Real.sqrt ((l.length : ℝ) - 1)) * (centralPowSum l 3 : ℝ) *
      ((centralPowSum l 2 : ℝ))⁻¹ * (Real.sqrt ((centralPowSum l 2 : ℚ) : ℝ))⁻¹ *
        (((l.length : ℝ) - 2))⁻¹) * hs

/-- C4 witness: the bias-adjustment identity applied to the concrete sample
`[1, 2, 3, 4, 5]`. -/
theorem pandas_kurt_skew_bias_adjusted_witness :
    4 ≤ ([1, 2, 3, 4, 5] : List ℚ).length ∧
      (∃ a ∈ ([1, 2, 3, 4, 5] : List ℚ), ∃ b ∈ ([1, 2, 3, 4, 5] : List ℚ), a ≠ b) ∧
      (pandasKurt [1, 2, 3, 4, 5] =
          some (((([1, 2, 3, 4, 5] : List ℚ).length : ℚ) - 1) /
            (((([1, 2, 3, 4, 5] : List ℚ).length : ℚ) - 2) *
              (((([1, 2, 3, 4, 5] : List ℚ).length : ℚ)) - 3)) *
            (((([1, 2, 3, 4, 5] : List ℚ).length : ℚ) + 1) *
              (plainKurt [1, 2, 3, 4, 5] - 3) + 6)) ∧
        pandasSkew [1, 2, 3, 4, 5] = some (plainSkew [1, 2, 3, 4, 5] *
          (Real.sqrt ((([1, 2, 3, 4, 5] : List ℚ).length : ℝ) *
            ((([1, 2, 3, 4, 5] : List ℚ).length : ℝ) - 1)) /
            ((([1, 2, 3, 4, 5] : List ℚ).length : ℝ) - 2)))) :=
  ⟨by decide, ⟨1, by decide, 2, by decide, by decide⟩,
    pandas_kurt_skew_bias_adjusted [1, 2, 3, 4, 5] (by decide)
      ⟨1, by decide, 2, by decide, by decide⟩⟩

/-- C6: a missing input file or a malformed row makes the rock-data section
stop with the unhandled read error: the value of the whole section is exactly
the raised error — no recovery, no retry, no partial result, and no handler
intercepts it. -/
theorem rockSection_unhandled_error :
    rockSection .missing = .error "FileNotFoundError" ∧
      rockSection .malformed = .error "ParserError" :=
  ⟨rfl, rfl⟩

/-- C7: the external-storage trace of the notebook consists of reads only (the
classic-rock CSV and the bundled Iris dataset), and running the trace leaves
every store unchanged. -/
theorem notebook_storage_unchanged :
    (∀ store : String → Option String, runEffects store notebookEffects = store) ∧
      notebookEffects.all Effect.isRead = true :=
  ⟨fun _ => rfl, rfl⟩

/-- C8: the Iris table has exactly the four numeric feature columns followed
by the label column `spec`, and after the integer cast and the map through
`cypher` every label value is one of the three species classes. -/
theorem iris_columns_and_labels :
    irisColumns.length = 5 ∧
      irisColumns.take 4 = ["sepal_len", "sepal_wid", "petal_len", "petal_wid"] ∧
      irisColumns.getD 4 "" = "spec" ∧
      ∀ d : IrisData, ∀ s ∈ specLabels d,
        s = some "setosa" ∨ s = some "versicolor" ∨ s = some "virginica" := by
  refine ⟨rfl, rfl, rfl, ?_⟩
  intro d s hs
  obtain ⟨t, ht, rfl⟩ := List.mem_map.mp hs
  rcases d.target_mem t ht with h | h | h <;> subst h <;> simp [cypher]

/-- C8 witness: the label bound applied to the concrete modelled Iris rows
with one target of each class. -/
theorem iris_columns_and_labels_witness :
    some "setosa" ∈ specLabels irisSample ∧
      (some "setosa" = some "setosa" ∨ some "setosa" = some "versicolor" ∨
        some "setosa" = some "virginica") :=
  ⟨by decide, iris_columns_and_labels.2.2.2 irisSample (some "setosa") (by decide)⟩

theorem foldr_max_mem : ∀ L : List ℕ, L ≠ [] → L.foldr max 0 ∈ L := by
  intro L
  induction L with
  | nil => intro h; exact absurd rfl h
  | cons a t ih =>
    intro _
    by_cases ht : t = []
    · subst ht; simp
    · rcases max_choice a (t.foldr max 0) with h | h
      · simp only [List.foldr_cons, h]
        exact List.mem_cons_self a t
      · simp only [List.foldr_cons, h]
        exact List.mem_cons_of_mem _ (ih ht)

theorem le_foldr_max : ∀ (L : List ℕ), ∀ x ∈ L, x ≤ L.foldr max 0 := by
  intro L
  induction L with
  | nil => intro x hx; cases hx
  | cons a t ih =>
    intro x hx
    simp only [List.foldr_cons]
    rcases List.mem_cons.mp hx with rfl | hx
    · exact le_max_left _ _
    · exact le_trans (ih x hx) (le_max_right _ _)

theorem count_le_maxCount (l : List ℚ) (v : ℚ) (hv : v ∈ l) : l.count v ≤ maxCount l :=
  le_foldr_max _ _ (List.mem_map_of_mem _ (List.mem_dedup.mpr hv))

theorem maxCount_attained (l : List ℚ) (h : l ≠ []) : ∃ v ∈ l, l.count v = maxCount l := by
  have hd : l.dedup ≠ [] := fun hnil => h ((List.dedup_eq_nil l).mp hnil)
  have hm : (l.dedup.map fun v => l.count v) ≠ [] := by
    simpa using hd
  have hmem := foldr_max_mem _ hm
  obtain ⟨v, hv, hcount⟩ := List.mem_map.mp hmem
  exact ⟨v, List.mem_dedup.mp hv, hcount⟩

theorem statsMode_characterization (l : List ℚ) (h : l ≠ []) :
    ∃ m, statsMode l = some m ∧ m ∈ l ∧
      (∀ v ∈ l, l.count v ≤ l.count m) ∧
      ∀ v ∈ l, l.count v = l.count m → m ≤ v := by
  set F := ((npSort l).dedup).filter (fun v => decide (l.count v = maxCount l)) with hF
  have hsub : List.Sublist F (npSort l) := (List.filter_sublist _).trans (List.dedup_sublist _)
  have hsortF : F.Sorted (· ≤ ·) := List.Pairwise.sublist hsub (sorted_npSort l)
  obtain ⟨v0, hv0l, hv0c⟩ := maxCount_attained l h
  have hv0F : v0 ∈ F := by
    rw [hF, List.mem_filter]
    exact ⟨List.mem_dedup.mpr (mem_npSort.mpr hv0l), by simp [hv0c]⟩
  obtain ⟨a, t, hat⟩ := List.exists_cons_of_ne_nil (List.ne_nil_of_mem hv0F)
  have haF : a ∈ F := hat ▸ List.mem_cons_self a t
  have hac : l.count a = maxCount l := by
    have := (List.mem_filter.mp haF).2
    simpa using this
  refine ⟨a, ?_, ?_, ?_, ?_⟩
  · show (((npSort l).dedup).filter (fun v => decide (l.count v = maxCount l))).head? = some a
    rw [← hF, hat]
    rfl
  · exact mem_npSort.mp (List.mem_dedup.mp (List.mem_filter.mp haF).1)
  · intro v hv
    rw [hac]
    exact count_le_maxCount l v hv
  · intro v hv hvc
    have hvF : v ∈ F := by
      rw [hF, List.mem_filter]
      exact ⟨List.mem_dedup.mpr (mem_npSort.mpr hv), by simp [hvc, hac]⟩
    rw [hat] at hvF hsortF
    rcases List.mem_cons.mp hvF with rfl | hvt
    · exact le_refl v
    · exact (List.sorted_cons.mp hsortF).1 v hvt

/-- C10: for every non-empty sample, `stats.mode(data)[0]` returns a value of
maximal frequency, and among the values sharing that maximal frequency it is
the smallest. -/
theorem statsMode_smallest_most_frequent (l : List ℚ) (h : l ≠ []) :
    ∃ m, statsMode l = some m ∧ m ∈ l ∧
      (∀ v ∈ l, l.count v ≤ l.count m) ∧
      ∀ v ∈ l, l.count v = l.count m → m ≤ v :=
  statsMode_characterization l h

/-- C10 witness: the mode characterization applied to the 11-element array of
cell-4. -/
theorem statsMode_smallest_most_frequent_witness :
    sampleData ≠ [] ∧
      ∃ m, statsMode sampleData = some m ∧ m ∈ sampleData ∧
        (∀ v ∈ sampleData, sampleData.count v ≤ sampleData.count m) ∧
        ∀ v ∈ sampleData, sampleData.count v = sampleData.count m → m ≤ v :=
  ⟨by decide, statsMode_smallest_most_frequent sampleData (by decide)⟩

theorem sum_map_reflect (c : ℚ) (l : List ℚ) :
    (l.map (reflectAbout c)).sum = 2 * c * l.length - l.sum := by
  induction l with
  | nil => simp
  | cons a t ih =>
    simp only [List.map_cons, List.sum_cons, ih, List.length_cons, reflectAbout]
    push_cast
    ring

theorem symmetric_perm (l : List ℚ) (c : ℚ) (h : SymmetricAbout l c) :
    List.Perm (l.map (reflectAbout c)) l :=
  Multiset.coe_eq_coe.mp h

theorem npMean_symmetric (l : List ℚ) (c : ℚ) (h : SymmetricAbout l c) (hne : l ≠ []) :
    npMean l = c := by
  have hsum : (l.map (reflectAbout c)).sum = l.sum := (symmetric_perm l c h).sum_eq
  rw [sum_map_reflect] at hsum
  have hn : (l.length : ℚ) ≠ 0 := by
    have h0 : l.length ≠ 0 := fun h0 => hne (List.length_eq_zero.mp h0)
    exact_mod_cast h0
  unfold npMean
  have hsum' : l.sum = c * l.length := by linarith
  rw [hsum']
  field_simp

theorem reflect_antitone {c a b : ℚ} (hab : a ≤ b) : reflectAbout c b ≤ reflectAbout c a := by
  unfold reflectAbout
  linarith

theorem npSort_eq_reverse_map (l : List ℚ) (c : ℚ) (h : SymmetricAbout l c) :
    npSort l = ((npSort l).map (reflectAbout c)).reverse := by
  have hp : List.Perm (npSort l) (((npSort l).map (reflectAbout c)).reverse) := by
    refine List.Perm.trans (perm_npSort l) ?_
    refine List.Perm.trans (symmetric_perm l c h).symm ?_
    refine List.Perm.trans (List.Perm.map _ (perm_npSort l).symm) ?_
    exact (List.reverse_perm _).symm
  refine List.eq_of_perm_of_sorted hp (sorted_npSort l) ?_
  rw [List.Sorted, List.pairwise_reverse, List.pairwise_map]
  exact List.Pairwise.imp (fun hab => reflect_antitone hab) (sorted_npSort l)

theorem npSort_getD_reflect (l : List ℚ) (c : ℚ) (h : SymmetricAbout l c)
    (i : ℕ) (hi : i < l.length) :
    (npSort l).getD i 0 + (npSort l).getD (l.length - 1 - i) 0 = 2 * c := by
  have hlen : (npSort l).length = l.length := length_npSort l
  have hi' : i < (npSort l).length := by omega
  have hj : l.length - 1 - i < (npSort l).length := by omega
  have heq := npSort_eq_reverse_map l c h
  have step1 : (npSort l).getD i 0 = (((npSort l).map (reflectAbout c)).reverse).getD i 0 := by
    conv_lhs => rw [heq]
  have step2 : (((npSort l).map (reflectAbout c)).reverse).getD i 0 =
      reflectAbout c ((npSort l).getD (l.length - 1 - i) 0) := by
    have hrl : i < (((npSort l).map (reflectAbout c)).reverse).length := by
      simpa [hlen] using hi'
    rw [List.getD_eq_getElem _ _ hrl, List.getD_eq_getElem _ _ hj]
    rw [List.getElem_reverse, List.getElem_map]
    simp only [List.length_map, hlen]
  rw [step1, step2]
  unfold reflectAbout
  ring

theorem npMedian_symmetric (l : List ℚ) (c : ℚ) (h : SymmetricAbout l c) (hne : l ≠ []) :
    npMedian l = c := by
  have hn : l.length ≠ 0 := fun h0 => hne (List.length_eq_zero.mp h0)
  by_cases hpar : l.length % 2 = 0
  · have h2 : 2 ≤ l.length := by omega
    have key := npSort_getD_reflect l c h (l.length / 2 - 1) (by omega)
    have hidx : l.length - 1 - (l.length / 2 - 1) = l.length / 2 := by omega
    rw [hidx] at key
    simp only [npMedian, hpar, if_true]
    linarith
  · have key := npSort_getD_reflect l c h ((l.length - 1) / 2) (by omega)
    have hidx : l.length - 1 - (l.length - 1) / 2 = (l.length - 1) / 2 := by omega
    rw [hidx] at key
    simp only [npMedian, hpar, if_false]
    linarith

theorem count_reflect (l : List ℚ) (c v : ℚ) (h : SymmetricAbout l c) :
    l.count (reflectAbout c v) = l.count v := by
  have hinj : Function.Injective (reflectAbout c) := by
    intro a b hab
    unfold reflectAbout at hab
    linarith
  calc l.count (reflectAbout c v)
      = (l.map (reflectAbout c)).count (reflectAbout c v) :=
        ((symmetric_perm l c h).count_eq _).symm
    _ = l.count v := List.count_map_of_injective l _ hinj v

theorem strict_mode_center (l : List ℚ) (c m : ℚ) (h : SymmetricAbout l c)
    (hm : IsStrictMode l m) : m = c := by
  by_contra hne
  have h1 : reflectAbout c m ≠ m := by
    unfold reflectAbout
    intro he
    exact hne (by linarith)
  have h2 : l.count (reflectAbout c m) = l.count m := count_reflect l c m h
  have h3 : reflectAbout c m ∈ l := by
    have hpos : 0 < l.count (reflectAbout c m) := by
      rw [h2]
      exact List.count_pos_iff.mpr hm.1
    exact List.count_pos_iff.mp hpos
  have h4 := hm.2 _ h3 h1
  omega

/-- C5: for every sample symmetric about a point `c` and unimodal (one value
strictly most frequent), the mean, the median, and the mode all equal `c` —
so they coincide; instantiated at `S = {1, 2, 2, 3}` with `c = 2` this gives
`mean(S) = median(S) = mode(S) = 2`. -/
theorem symmetric_unimodal_mean_median_mode (l : List ℚ) (c m : ℚ)
    (hsym : SymmetricAbout l c) (hmode : IsStrictMode l m) :
    npMean l = c ∧ npMedian l = c ∧ statsMode l = some c := by
  have hne : l ≠ [] := List.ne_nil_of_mem hmode.1
  have hmc : m = c := strict_mode_center l c m hsym hmode
  refine ⟨npMean_symmetric l c hsym hne, npMedian_symmetric l c hsym hne, ?_⟩
  obtain ⟨m', hm', hm'l, hmax, hmin⟩ := statsMode_characterization l hne
  have hmm : m' = m := by
    by_contra hne'
    have hlt := hmode.2 m' hm'l hne'
    have hle := hmax m hmode.1
    omega
  rw [hm', hmm, hmc]

theorem sampleS_symmetric : SymmetricAbout sampleS 2 := by
  unfold SymmetricAbout sampleS reflectAbout
  norm_num
  decide

/-- C5 witness: the dataset S = [1, 2, 2, 3] of the notebook markdown is
symmetric about 2 with strict mode 2, and its mean, median, and mode are
all 2. -/
theorem symmetric_unimodal_mean_median_mode_witness :
    SymmetricAbout sampleS 2 ∧ IsStrictMode sampleS 2 ∧
      npMean sampleS = 2 ∧ npMedian sampleS = 2 ∧ statsMode sampleS = some 2 :=
  ⟨sampleS_symmetric, by decide,
    symmetric_unimodal_mean_median_mode sampleS 2 2 sampleS_symmetric (by decide)⟩

end DescStats
